import Mathlib

/-!
# QueCtl dispatch core — shallow embedding

A shallow embedding of the job-queue dispatch core of QueCtl
(`src/storage.js`, `src/queue.js`, `src/config.js`) and proofs of the
behavioural claims about it.

Modelling conventions:
* The SQLite `jobs` table is a `List Job` in rowid (insertion) order.
* ISO-8601 timestamp strings are modelled as rationals (`ℚ`, milliseconds
  since epoch); lexicographic comparison of fixed-format ISO strings agrees
  with the numeric order.
* `backoff_base` is a `parseFloat` result in the source and may be
  fractional; it is modelled as `ℚ`.
* JavaScript `x || d` defaulting (where both `undefined` and `0` are falsy)
  is modelled explicitly by `jsOrNat`.
* SQL `ORDER BY k ASC LIMIT 1` is `List.argmin k`; SQLite sorts `NULL`
  first, which is the `⊥` of `WithBot ℚ`.
* `better-sqlite3` runs every statement atomically and the worker loop is
  sequential in each process, so each storage/queue operation is one
  atomic step on the store.
-/

namespace QueCtl

/-- The five job states of the `state` column. -/
inductive JobState where
  | pending
  | processing
  | completed
  | failed
  | dead
deriving DecidableEq, Repr

/-- One row of the `jobs` table (`rowToJob` in `storage.js`). -/
structure Job where
  id : String
  command : String
  state : JobState
  attempts : Nat
  max_retries : Nat
  created_at : ℚ
  updated_at : ℚ
  next_retry_at : Option ℚ
  worker_id : Option String
  error_message : Option String
deriving DecidableEq, Repr

/-- The jobs table, in rowid order. -/
abbrev Store := List Job

/-- JavaScript `x || d` on an optional number: `undefined` and `0` are both
falsy, so they fall through to the default. -/
def jsOrNat (x : Option Nat) (d : Nat) : Nat :=
  match x with
  | none => d
  | some n => if n = 0 then d else n

/-- The `config` table restricted to the two keys the core reads
(`max_retries`, `backoff_base`); `none` means the key is absent. -/
structure Config where
  max_retries : Option Nat
  backoff_base : Option ℚ
deriving DecidableEq, Repr

/-- `Config.getMaxRetries`: `parseInt(this.get('max_retries') || '3', 10)`.
A stored string (even `'0'`) is truthy, so only an absent key defaults. -/
def Config.getMaxRetries (c : Config) : Nat :=
  c.max_retries.getD 3

/-- `Config.getBackoffBase`: `parseFloat(this.get('backoff_base') || '2')`. -/
def Config.getBackoffBase (c : Config) : ℚ :=
  c.backoff_base.getD 2

/-- The config seeded by `Storage.init` on first run. -/
def Config.seeded : Config := ⟨some 3, some 2⟩

/-- `Storage.getJob`: `SELECT * FROM jobs WHERE id = ?` (first row wins;
`id` is the primary key so there is at most one). -/
def getJob (s : Store) (id : String) : Option Job :=
  List.find? (fun j => decide (j.id = id)) s

/-- `Storage.createJob`: `INSERT INTO jobs ...` followed by `getJob`.
The inserted row applies the constructor-level `||` fallbacks; of those only
`job.max_retries || 3` is consequential for the enqueue caller (which always
passes `state='pending'`, `attempts=0` and fresh timestamps, all of which the
`||` leaves unchanged). The caller has already checked the id is fresh, so
the primary-key insert succeeds. -/
def createJob (s : Store) (j : Job) : Store × Job :=
  let row := { j with max_retries := if j.max_retries = 0 then 3 else j.max_retries }
  (s ++ [row], row)

/-- `Storage.updateJob`: `UPDATE jobs SET <fields>, updated_at = now WHERE
id = ?`. The field assignment of a call site is passed as the patch `f`;
`updated_at` is always refreshed. -/
def updateJob (s : Store) (id : String) (now : ℚ) (f : Job → Job) : Store :=
  List.map (fun j => if j.id = id then { f j with updated_at := now } else j) s

/-- `Storage.lockJob`: `UPDATE jobs SET state='processing', worker_id=?,
updated_at=? WHERE id = ? AND state = 'pending'`; returns
`result.changes > 0`, i.e. whether some row matched the `WHERE` clause. -/
def lockJob (s : Store) (id workerId : String) (now : ℚ) : Store × Bool :=
  (List.map (fun j =>
      if j.id = id ∧ j.state = JobState.pending then
        { j with state := JobState.processing, worker_id := some workerId,
                 updated_at := now }
      else j) s,
   List.any s (fun j => decide (j.id = id ∧ j.state = JobState.pending)))

/-- `Storage.getNextPendingJob`: `SELECT * FROM jobs WHERE state='pending'
ORDER BY created_at ASC LIMIT 1`. -/
def getNextPendingJob (s : Store) : Option Job :=
  List.argmin (fun j => j.created_at)
    (List.filter (fun j => decide (j.state = JobState.pending)) s)

/-- The retry-due test of `getRetryableJobs`:
`next_retry_at IS NULL OR next_retry_at <= now`. -/
def dueBy (o : Option ℚ) (now : ℚ) : Bool :=
  match o with
  | none => true
  | some t => decide (t ≤ now)

/-- The `WHERE` clause of `Storage.getRetryableJobs`. -/
def isRetryable (now : ℚ) (j : Job) : Bool :=
  decide (j.state = JobState.failed) && decide (j.attempts < j.max_retries) &&
    dueBy j.next_retry_at now

/-- Sort key of `ORDER BY next_retry_at ASC`: SQLite sorts `NULL` before
every value, i.e. `NULL` is `⊥`. -/
def retryKey (j : Job) : WithBot ℚ :=
  match j.next_retry_at with
  | none => ⊥
  | some t => (t : WithBot ℚ)

/-- `Storage.getRetryableJobs`: `SELECT * FROM jobs WHERE state='failed' AND
attempts < max_retries AND (next_retry_at IS NULL OR next_retry_at <= ?)
ORDER BY next_retry_at ASC LIMIT 1`. -/
def getRetryableJobs (s : Store) (now : ℚ) : Option Job :=
  List.argmin retryKey (List.filter (isRetryable now) s)

/-- `Storage.moveToDLQ`: `updateJob(id, { state: 'dead', worker_id: null })`,
returning the refreshed row. -/
def moveToDLQ (s : Store) (id : String) (now : ℚ) : Store × Option Job :=
  let s' := updateJob s id now
    (fun j => { j with state := JobState.dead, worker_id := none })
  (s', getJob s' id)

/-- `Storage.retryFromDLQ`: returns `null` and changes nothing unless the job
exists and is `dead`; otherwise resets it for a fresh run. -/
def retryFromDLQ (s : Store) (id : String) (now : ℚ) : Store × Option Job :=
  match getJob s id with
  | none => (s, none)
  | some j =>
    if j.state = JobState.dead then
      let s' := updateJob s id now
        (fun k => { k with state := JobState.pending, attempts := 0,
                           next_retry_at := none, error_message := none })
      (s', getJob s' id)
    else (s, none)

/-- A job descriptor as submitted to `Queue.enqueue`; `none` models an absent
JSON field. -/
structure JobDescriptor where
  id : Option String
  command : Option String
  max_retries : Option Nat
deriving DecidableEq, Repr

/-- `Queue.enqueue`: validates `id` and `command` (JavaScript `!x` also
rejects the empty string), rejects duplicate ids, applies the configuration
default for `max_retries` via `jobData.max_retries || getMaxRetries()`, and
delegates to `createJob`. -/
def enqueue (s : Store) (d : JobDescriptor) (cfg : Config) (now : ℚ) :
    Except String (Store × Job) :=
  match d.id with
  | none => Except.error "Job must have an id"
  | some i =>
    if i = "" then Except.error "Job must have an id"
    else match d.command with
      | none => Except.error "Job must have a command"
      | some c =>
        if c = "" then Except.error "Job must have a command"
        else match getJob s i with
          | some _ => Except.error "Job already exists"
          | none =>
            Except.ok (createJob s
              { id := i, command := c, state := JobState.pending,
                attempts := 0,
                max_retries := jsOrNat d.max_retries cfg.getMaxRetries,
                created_at := now, updated_at := now,
                next_retry_at := none, worker_id := none,
                error_message := none })

/-- Outcome record of `Queue.executeJob`: `null` on a lost claim race,
`{success:true}` on success, `{success:false, attempts, nextRetryAt}` on
failure (`nextRetryAt` stays `null` on the DLQ branch). -/
inductive ExecOutcome where
  | lostRace
  | succeeded
  | failed (attempts : Nat) (nextRetryAt : Option ℚ)
deriving DecidableEq, Repr

/-- `Queue.executeJob job workerId`. The command execution itself is the
external collaborator; its result enters as `runSuccess` and `rawError`
(`error.message`, defaulted by `|| 'Command execution failed'`). `tLock` is
the `new Date()` taken in `lockJob`, `tDone` the `Date.now()` of the
post-execution update. The `attempts`/`max_retries` used by the failure
branch come from the `job` argument (the caller's snapshot), exactly as in
the source. -/
def executeJob (s : Store) (job : Job) (workerId : String) (runSuccess : Bool)
    (rawError : String) (base : ℚ) (tLock tDone : ℚ) : Store × ExecOutcome :=
  let locked := lockJob s job.id workerId tLock
  if locked.2 = false then (locked.1, ExecOutcome.lostRace)
  else if runSuccess then
    (updateJob locked.1 job.id tDone
       (fun j => { j with state := JobState.completed, worker_id := none,
                          error_message := none }),
     ExecOutcome.succeeded)
  else
    let attempts := job.attempts + 1
    let errorMessage := if rawError = "" then "Command execution failed" else rawError
    if job.max_retries ≤ attempts then
      (updateJob locked.1 job.id tDone
         (fun j => { j with state := JobState.dead, attempts := attempts,
                            worker_id := none,
                            error_message := some errorMessage }),
       ExecOutcome.failed attempts none)
    else
      let nextRetryAt := tDone + base ^ attempts * 1000
      (updateJob locked.1 job.id tDone
         (fun j => { j with state := JobState.failed, attempts := attempts,
                            next_retry_at := some nextRetryAt,
                            worker_id := none,
                            error_message := some errorMessage }),
       ExecOutcome.failed attempts (some nextRetryAt))

/-- `Queue.getNextJob`: oldest pending job if any; otherwise reset the due
retryable job (if any) to `pending`, clearing `next_retry_at`, and return the
refreshed row; otherwise `null`. -/
def getNextJob (s : Store) (now : ℚ) : Store × Option Job :=
  match getNextPendingJob s with
  | some j => (s, some j)
  | none =>
    match getRetryableJobs s now with
    | some j =>
      let s' := updateJob s j.id now
        (fun k => { k with state := JobState.pending, next_retry_at := none })
      (s', getJob s' j.id)
    | none => (s, none)

/-- A sequence of claim attempts against one job id: each attempt runs
`lockJob` on the store left by the previous attempt and its result is
recorded in order. -/
def lockSeq (s : Store) (id : String) : List (String × ℚ) → Store × List Bool
  | [] => (s, [])
  | a :: rest =>
    let r := lockJob s id a.1 a.2
    let t := lockSeq r.1 id rest
    (t.1, r.2 :: t.2)

/-! ## Well-formedness predicates, step relation, and reachability -/

/-- The primary-key property of the `jobs` table: ids are pairwise distinct. -/
def uniqueIds (s : Store) : Prop := List.Pairwise (fun a b => a.id ≠ b.id) s

instance (s : Store) : Decidable (uniqueIds s) :=
  inferInstanceAs (Decidable (List.Pairwise _ s))

/-- The `worker_id` discipline: a worker holds the job exactly while it is
`processing`. -/
def widOk (j : Job) : Prop :=
  j.worker_id ≠ none ↔ j.state = JobState.processing

/-- Discipline of `failed` rows: a retry is scheduled and the retry budget is
not exhausted. -/
def failedOk (j : Job) : Prop :=
  j.state = JobState.failed →
    j.next_retry_at ≠ none ∧ j.attempts < j.max_retries

/-- The store invariant: primary-key uniqueness plus the per-row
disciplines. -/
def Inv (s : Store) : Prop :=
  uniqueIds s ∧ ∀ j ∈ s, widOk j ∧ failedOk j

/-- One atomic operation of the dispatch core against the store, as invoked
by the queue API: enqueue, a claim attempt, a full `executeJob` round (the
snapshot handed to `executeJob` is the job's current row, as for a
sequentially dispatched worker), a `getNextJob` poll, and the two DLQ
moves. -/
inductive Step : Store → Store → Prop where
  | enq {s : Store} (d : JobDescriptor) (cfg : Config) (now : ℚ)
      {s' : Store} {j : Job} (h : enqueue s d cfg now = Except.ok (s', j)) :
      Step s s'
  | claim {s : Store} (id wid : String) (now : ℚ) :
      Step s (lockJob s id wid now).1
  | exec {s : Store} {job : Job} (wid err : String) (runOk : Bool)
      (base t1 t2 : ℚ) (h : getJob s job.id = some job) :
      Step s (executeJob s job wid runOk err base t1 t2).1
  | next {s : Store} (now : ℚ) : Step s (getNextJob s now).1
  | moveDead {s : Store} (id : String) (now : ℚ) :
      Step s (moveToDLQ s id now).1
  | retryDead {s : Store} (id : String) (now : ℚ) :
      Step s (retryFromDLQ s id now).1

/-- Stores reachable from the empty table through dispatch operations. -/
inductive Reachable : Store → Prop where
  | base : Reachable []
  | step {s s' : Store} (h : Reachable s) (hs : Step s s') : Reachable s'

/-! ## Concrete fixtures used to instantiate the theorems -/

/-- A fresh pending job used to exercise the claim protocol. -/
def w1 : Job :=
  ⟨"c1", "cmd", JobState.pending, 0, 3, 0, 0, none, none, none⟩

/-- A pending job one failure away from its retry budget. -/
def w2 : Job :=
  ⟨"c2", "cmd", JobState.pending, 2, 3, 0, 0, none, none, none⟩

/-- A pending job with budget to spare, for the backoff formula. -/
def w4 : Job :=
  ⟨"c4", "cmd", JobState.pending, 1, 5, 0, 0, none, none, none⟩

/-- A failed job whose retry is due. -/
def w5 : Job :=
  ⟨"c5", "cmd", JobState.failed, 1, 3, 0, 0, some 5000, none, some "E"⟩

/-- The record `getNextJob` hands back after re-queueing `w5`. -/
def w5r : Job :=
  ⟨"c5", "cmd", JobState.pending, 1, 3, 0, 10000, none, none, some "E"⟩

/-- A dead-letter job. -/
def w6 : Job :=
  ⟨"c6", "cmd", JobState.dead, 3, 3, 0, 0, none, none, some "boom"⟩

/-- `w6` after `retryFromDLQ` at time 7. -/
def w6r : Job :=
  ⟨"c6", "cmd", JobState.pending, 0, 3, 0, 7, none, none, none⟩

/-- A descriptor supplying `max_retries = 0`. -/
def zeroDescr : JobDescriptor := ⟨some "a", some "c", some 0⟩

/-- What enqueueing `zeroDescr` actually persists. -/
def zeroJob : Job :=
  ⟨"a", "c", JobState.pending, 0, 3, 0, 0, none, none, none⟩

/-- A descriptor supplying `max_retries = 5`. -/
def fiveDescr : JobDescriptor := ⟨some "b", some "c", some 5⟩

/-- What enqueueing `fiveDescr` persists. -/
def fiveJob : Job :=
  ⟨"b", "c", JobState.pending, 0, 5, 0, 0, none, none, none⟩

/-- Descriptor for the reachability fixture of the `worker_id` invariant. -/
def d8 : JobDescriptor := ⟨some "w8", some "cmd", none⟩

/-- The store after enqueueing `d8` into an empty store at time 0. -/
def s8a : Store :=
  [⟨"w8", "cmd", JobState.pending, 0, 3, 0, 0, none, none, none⟩]

/-- The store after `worker-1` claims the job at time 1. -/
def s8b : Store :=
  [⟨"w8", "cmd", JobState.processing, 0, 3, 0, 1, none, some "worker-1", none⟩]

/-- Descriptor for the reachability fixture of the `failed`-row invariant. -/
def d9 : JobDescriptor := ⟨some "w9", some "cmd", none⟩

/-- The job enqueued from `d9` at time 0. -/
def j9 : Job := ⟨"w9", "cmd", JobState.pending, 0, 3, 0, 0, none, none, none⟩

/-- The store holding just `j9`. -/
def s9a : Store := [j9]

/-- The store after `j9` fails once at time 0 with backoff base 2. -/
def s9b : Store :=
  [⟨"w9", "cmd", JobState.failed, 1, 3, 0, 0, some 2000, none, some "E"⟩]

/-- A pending job that succeeds on its first execution attempt. -/
def w10 : Job :=
  ⟨"c10", "echo ok", JobState.pending, 0, 3, 0, 0, none, none, none⟩

/-! ### The always-failing scenario (`max_retries = 3`, base 2)

The job descriptor of the spec scenario, enqueued at time 0, then executed by
a worker that polls exactly when each retry falls due. Times are in
milliseconds. -/

/-- `{id:"j1", command:"exit 1", max_retries:3}`. -/
def scDescr : JobDescriptor := ⟨some "j1", some "exit 1", some 3⟩

/-- The persisted job. -/
def scJob0 : Job :=
  ⟨"j1", "exit 1", JobState.pending, 0, 3, 0, 0, none, none, none⟩

/-- The store holding just the fresh job. -/
def scStore0 : Store := [scJob0]

/-- The row after the first failed execution at t = 0: `attempts = 1`,
retry due at t = 2000 (a 2-second backoff). -/
def scJob1 : Job :=
  ⟨"j1", "exit 1", JobState.failed, 1, 3, 0, 0, some 2000, none, some "E"⟩

/-- The store after the first failed execution. -/
def scStore1 : Store := [scJob1]

/-- The snapshot handed out by the poll at t = 2000: reset to `pending`,
`next_retry_at` cleared. -/
def scJob2 : Job :=
  ⟨"j1", "exit 1", JobState.pending, 1, 3, 0, 2000, none, none, some "E"⟩

/-- The store after that poll. -/
def scStore2 : Store := [scJob2]

/-- The row after the second failed execution at t = 2000: `attempts = 2`,
retry due at t = 6000 (a 4-second backoff). -/
def scJob3 : Job :=
  ⟨"j1", "exit 1", JobState.failed, 2, 3, 0, 2000, some 6000, none, some "E"⟩

/-- The store after the second failed execution. -/
def scStore3 : Store := [scJob3]

/-- The snapshot handed out by the poll at t = 6000. -/
def scJob4 : Job :=
  ⟨"j1", "exit 1", JobState.pending, 2, 3, 0, 6000, none, none, some "E"⟩

/-- The store after that poll. -/
def scStore4 : Store := [scJob4]

/-- The row after the third failed execution at t = 6000: post-increment
`attempts = 3 ≥ max_retries = 3`, so the job is dead. -/
def scJob5 : Job :=
  ⟨"j1", "exit 1", JobState.dead, 3, 3, 0, 6000, none, none, some "E"⟩

/-- The store after the third failed execution. -/
def scStore5 : Store := [scJob5]

/-! ## Store well-formedness and basic lemmas -/

theorem getJob_eq_none {s : Store} {id : String} :
    getJob s id = none ↔ ∀ j ∈ s, j.id ≠ id := by
  simp [getJob]

theorem getJob_mem {s : Store} {id : String} {j : Job} (h : getJob s id = some j) :
    j ∈ s ∧ j.id = id := by
  refine ⟨List.mem_of_find?_eq_some h, ?_⟩
  simpa using List.find?_some h

theorem eq_of_mem_of_getJob {s : Store} {id : String} {j k : Job}
    (hu : uniqueIds s) (hget : getJob s id = some j) (hk : k ∈ s)
    (hid : k.id = id) : k = j := by
  obtain ⟨hjmem, hjid⟩ := getJob_mem hget
  by_contra hne
  exact List.Pairwise.forall (R := fun a b : Job => a.id ≠ b.id)
    (fun a b h => Ne.symm h) hu hk hjmem hne (hid.trans hjid.symm)

theorem getJob_map (s : Store) (id : String) (g : Job → Job)
    (hg : ∀ j, (g j).id = j.id) :
    getJob (List.map g s) id = (getJob s id).map g := by
  simp only [getJob, List.find?_map]
  have hp : ((fun j : Job => decide (j.id = id)) ∘ g) =
      fun j : Job => decide (j.id = id) := by
    funext j
    simp [Function.comp, hg]
  rw [hp]

theorem map_id_of_forall {l : List Job} {g : Job → Job}
    (h : ∀ j ∈ l, g j = j) : l.map g = l := by
  induction l with
  | nil => rfl
  | cons a t ih => simp [h a (by simp), ih fun j hj => h j (by simp [hj])]

theorem uniqueIds_map {s : Store} {g : Job → Job}
    (hg : ∀ j, (g j).id = j.id) (hu : uniqueIds s) :
    uniqueIds (List.map g s) := by
  rw [uniqueIds, List.pairwise_map]
  exact hu.imp (by intro a b h; simpa [hg] using h)

/-! ### `updateJob` lemmas -/

theorem mem_updateJob {s : Store} {id : String} {now : ℚ} {f : Job → Job}
    {j' : Job} :
    j' ∈ updateJob s id now f ↔
      ∃ k ∈ s, j' = if k.id = id then { f k with updated_at := now } else k := by
  simp only [updateJob, List.mem_map, eq_comm]

theorem uniqueIds_updateJob {s : Store} {id : String} {now : ℚ} {f : Job → Job}
    (hf : ∀ j, (f j).id = j.id) (hu : uniqueIds s) :
    uniqueIds (updateJob s id now f) := by
  refine uniqueIds_map ?_ hu
  intro j
  by_cases hj : j.id = id <;> simp [hj, hf]

theorem getJob_updateJob {s : Store} {id : String} {now : ℚ} {f : Job → Job}
    (hf : ∀ j, (f j).id = j.id) {j : Job} (h : getJob s id = some j) :
    getJob (updateJob s id now f) id = some { f j with updated_at := now } := by
  have hmap := getJob_map s id
    (fun k => if k.id = id then { f k with updated_at := now } else k)
    (by intro k; by_cases hk : k.id = id <;> simp [hk, hf])
  rw [updateJob, hmap, h]
  simp [(getJob_mem h).2]

theorem getJob_updateJob_other {s : Store} {id id' : String} {now : ℚ}
    {f : Job → Job} (hf : ∀ j, (f j).id = j.id) (hne : id' ≠ id) :
    getJob (updateJob s id now f) id' = getJob s id' := by
  have hmap := getJob_map s id'
    (fun k => if k.id = id then { f k with updated_at := now } else k)
    (by intro k; by_cases hk : k.id = id <;> simp [hk, hf])
  rw [updateJob, hmap]
  cases h : getJob s id' with
  | none => rfl
  | some k =>
    have hk := (getJob_mem h).2
    simp [hk, hne]

/-! ### `lockJob` lemmas -/

theorem lockJob_any_iff {s : Store} {id wid : String} {now : ℚ} :
    (lockJob s id wid now).2 = true ↔
      ∃ j ∈ s, j.id = id ∧ j.state = JobState.pending := by
  simp [lockJob]

theorem lockJob_not_locked {s : Store} {id wid : String} {now : ℚ}
    (h : (lockJob s id wid now).2 = false) :
    (lockJob s id wid now).1 = s := by
  simp only [lockJob, List.any_eq_false, decide_eq_true_eq] at h
  simp only [lockJob]
  refine map_id_of_forall ?_
  intro j hj
  simp [h j hj]

theorem getJob_lockJob {s : Store} {id wid : String} {now : ℚ} {j : Job}
    (h : getJob s id = some j) :
    getJob (lockJob s id wid now).1 id =
      some (if j.state = JobState.pending then
        { j with state := JobState.processing, worker_id := some wid,
                 updated_at := now }
      else j) := by
  have hmap := getJob_map s id
    (fun k => if k.id = id ∧ k.state = JobState.pending then
        { k with state := JobState.processing, worker_id := some wid,
                 updated_at := now }
      else k)
    (by intro k; by_cases hk : k.id = id ∧ k.state = JobState.pending <;>
        simp [hk])
  rw [lockJob, hmap, h]
  have hid := (getJob_mem h).2
  by_cases hp : j.state = JobState.pending <;> simp [hid, hp]

theorem getJob_lockJob_other {s : Store} {id id' wid : String} {now : ℚ}
    (hne : id' ≠ id) :
    getJob (lockJob s id wid now).1 id' = getJob s id' := by
  have hmap := getJob_map s id'
    (fun k => if k.id = id ∧ k.state = JobState.pending then
        { k with state := JobState.processing, worker_id := some wid,
                 updated_at := now }
      else k)
    (by intro k; by_cases hk : k.id = id ∧ k.state = JobState.pending <;>
        simp [hk])
  rw [lockJob, hmap]
  cases h : getJob s id' with
  | none => rfl
  | some k =>
    have hk := (getJob_mem h).2
    simp [hk, hne]

/-! ### Query lemmas -/

theorem isRetryable_iff {now : ℚ} {j : Job} :
    isRetryable now j = true ↔
      j.state = JobState.failed ∧ j.attempts < j.max_retries ∧
        ∀ t, j.next_retry_at = some t → t ≤ now := by
  cases h : j.next_retry_at <;> simp [isRetryable, dueBy, h, and_assoc]

theorem getNextPendingJob_mem {s : Store} {j : Job}
    (h : getNextPendingJob s = some j) :
    j ∈ s ∧ j.state = JobState.pending := by
  have hm := List.argmin_mem (f := fun j : Job => j.created_at)
    (Option.mem_def.mpr h)
  simpa using hm

theorem getNextPendingJob_min {s : Store} {j : Job}
    (h : getNextPendingJob s = some j) :
    ∀ k ∈ s, k.state = JobState.pending → j.created_at ≤ k.created_at := by
  intro k hk hkp
  exact List.le_of_mem_argmin (f := fun j : Job => j.created_at)
    (by simp [List.mem_filter, hk, hkp]) (Option.mem_def.mpr h)

theorem getNextPendingJob_eq_none {s : Store} :
    getNextPendingJob s = none ↔ ∀ j ∈ s, j.state ≠ JobState.pending := by
  rw [getNextPendingJob, List.argmin_eq_none, List.filter_eq_nil_iff]
  simp

theorem getRetryableJobs_mem {s : Store} {now : ℚ} {j : Job}
    (h : getRetryableJobs s now = some j) :
    j ∈ s ∧ isRetryable now j = true := by
  have hm := List.argmin_mem (f := retryKey) (Option.mem_def.mpr h)
  simpa using hm

theorem getRetryableJobs_min {s : Store} {now : ℚ} {j : Job}
    (h : getRetryableJobs s now = some j) :
    ∀ k ∈ s, isRetryable now k = true → retryKey j ≤ retryKey k := by
  intro k hk hkr
  exact List.le_of_mem_argmin (f := retryKey)
    (by simp [List.mem_filter, hk, hkr]) (Option.mem_def.mpr h)

theorem getRetryableJobs_eq_none {s : Store} {now : ℚ} :
    getRetryableJobs s now = none ↔ ∀ j ∈ s, ¬ isRetryable now j = true := by
  rw [getRetryableJobs, List.argmin_eq_none, List.filter_eq_nil_iff]

/-! ### `enqueue` inversion -/

theorem enqueue_ok {s : Store} {d : JobDescriptor} {cfg : Config} {now : ℚ}
    {s' : Store} {j : Job} (h : enqueue s d cfg now = Except.ok (s', j)) :
    s' = s ++ [j] ∧ j.state = JobState.pending ∧ j.attempts = 0 ∧
      j.worker_id = none ∧ j.next_retry_at = none ∧ j.error_message = none ∧
      j.created_at = now ∧ j.updated_at = now ∧ getJob s j.id = none ∧
      d.id = some j.id ∧ d.command = some j.command ∧
      j.max_retries = (if jsOrNat d.max_retries cfg.getMaxRetries = 0 then 3
                       else jsOrNat d.max_retries cfg.getMaxRetries) := by
  unfold enqueue at h
  split at h
  · exact absurd h (by simp)
  next i hdid =>
    split at h
    · exact absurd h (by simp)
    next hi =>
      split at h
      · exact absurd h (by simp)
      next c hdc =>
        split at h
        · exact absurd h (by simp)
        next hc =>
          split at h
          · exact absurd h (by simp)
          next hg =>
            simp only [createJob, Except.ok.injEq, Prod.mk.injEq] at h
            obtain ⟨hs', hj⟩ := h
            subst hj
            subst hs'
            simp [hg, hdid, hdc]

/-! ### `executeJob` branch equations -/

theorem executeJob_eq_lost {s : Store} {job : Job} {wid err : String}
    {runOk : Bool} {base t1 t2 : ℚ}
    (hL : (lockJob s job.id wid t1).2 = false) :
    executeJob s job wid runOk err base t1 t2 =
      ((lockJob s job.id wid t1).1, ExecOutcome.lostRace) := by
  simp only [executeJob, hL]
  simp

theorem executeJob_eq_success {s : Store} {job : Job} {wid err : String}
    {base t1 t2 : ℚ} (hL : (lockJob s job.id wid t1).2 = true) :
    executeJob s job wid true err base t1 t2 =
      (updateJob (lockJob s job.id wid t1).1 job.id t2
        (fun k => { k with state := JobState.completed, worker_id := none,
                           error_message := none }),
       ExecOutcome.succeeded) := by
  simp only [executeJob, hL]
  simp

theorem executeJob_eq_dead {s : Store} {job : Job} {wid err : String}
    {base t1 t2 : ℚ} (hL : (lockJob s job.id wid t1).2 = true)
    (hdead : job.max_retries ≤ job.attempts + 1) :
    executeJob s job wid false err base t1 t2 =
      (updateJob (lockJob s job.id wid t1).1 job.id t2
        (fun k => { k with state := JobState.dead,
                           attempts := job.attempts + 1, worker_id := none,
                           error_message := some (if err = "" then
                             "Command execution failed" else err) }),
       ExecOutcome.failed (job.attempts + 1) none) := by
  simp only [executeJob, hL]
  simp [hdead]

theorem executeJob_eq_failed {s : Store} {job : Job} {wid err : String}
    {base t1 t2 : ℚ} (hL : (lockJob s job.id wid t1).2 = true)
    (hlive : job.attempts + 1 < job.max_retries) :
    executeJob s job wid false err base t1 t2 =
      (updateJob (lockJob s job.id wid t1).1 job.id t2
        (fun k => { k with state := JobState.failed,
                           attempts := job.attempts + 1,
                           next_retry_at :=
                             some (t2 + base ^ (job.attempts + 1) * 1000),
                           worker_id := none,
                           error_message := some (if err = "" then
                             "Command execution failed" else err) }),
       ExecOutcome.failed (job.attempts + 1)
         (some (t2 + base ^ (job.attempts + 1) * 1000))) := by
  simp only [executeJob, hL]
  simp [Nat.not_le.mpr hlive]

/-! ## Invariant preservation -/

theorem getJob_of_mem {s : Store} {j : Job} (hu : uniqueIds s) (hj : j ∈ s) :
    getJob s j.id = some j := by
  cases h : getJob s j.id with
  | none => exact absurd rfl (getJob_eq_none.mp h j hj)
  | some k => rw [eq_of_mem_of_getJob hu h hj rfl]

theorem widOk_none_of_not_processing {j : Job} (h : widOk j)
    (hs : j.state ≠ JobState.processing) : j.worker_id = none := by
  by_contra hw
  exact hs (h.mp hw)

/-- Generic preservation of `Inv` by an `updateJob` whose patched rows keep
the disciplines. -/
theorem Inv_updateJob_of {s : Store} {id : String} {now : ℚ} {f : Job → Job}
    (hf : ∀ j, (f j).id = j.id)
    (hpatch : ∀ k ∈ s, k.id = id →
      widOk { f k with updated_at := now } ∧
        failedOk { f k with updated_at := now })
    (hI : Inv s) : Inv (updateJob s id now f) := by
  refine ⟨uniqueIds_updateJob hf hI.1, ?_⟩
  intro j' hj'
  obtain ⟨k, hk, hkeq⟩ := mem_updateJob.mp hj'
  by_cases hkid : k.id = id
  · rw [hkeq, if_pos hkid]
    exact hpatch k hk hkid
  · rw [hkeq, if_neg hkid]
    exact hI.2 k hk

theorem Inv_enqueue {s : Store} {d : JobDescriptor} {cfg : Config} {now : ℚ}
    {s' : Store} {j : Job} (h : enqueue s d cfg now = Except.ok (s', j))
    (hI : Inv s) : Inv s' := by
  obtain ⟨hs', hstate, -, hwid, hnra, -, -, -, hfresh, -⟩ := enqueue_ok h
  subst hs'
  constructor
  · rw [uniqueIds, List.pairwise_append]
    refine ⟨hI.1, by simp [uniqueIds], ?_⟩
    intro a ha b hb
    rw [List.mem_singleton] at hb
    subst hb
    exact getJob_eq_none.mp hfresh a ha
  · intro k hk
    rcases List.mem_append.mp hk with hk | hk
    · exact hI.2 k hk
    · rw [List.mem_singleton] at hk
      subst hk
      constructor
      · rw [widOk, hwid, hstate]
        simp
      · rw [failedOk, hstate]
        simp

theorem Inv_lockJob {s : Store} {id wid : String} {now : ℚ} (hI : Inv s) :
    Inv (lockJob s id wid now).1 := by
  have hids : ∀ k : Job,
      ((if k.id = id ∧ k.state = JobState.pending then
          { k with state := JobState.processing, worker_id := some wid,
                   updated_at := now }
        else k) : Job).id = k.id := by
    intro k
    by_cases hk : k.id = id ∧ k.state = JobState.pending <;> simp [hk]
  refine ⟨uniqueIds_map hids hI.1, ?_⟩
  intro j' hj'
  simp only [lockJob, List.mem_map] at hj'
  obtain ⟨k, hk, hkeq⟩ := hj'
  by_cases hc : k.id = id ∧ k.state = JobState.pending
  · rw [if_pos hc] at hkeq
    subst hkeq
    exact ⟨by simp [widOk], by simp [failedOk]⟩
  · rw [if_neg hc] at hkeq
    subst hkeq
    exact hI.2 k hk

theorem Inv_executeJob {s : Store} {job : Job} {wid err : String}
    {runOk : Bool} {base t1 t2 : ℚ}
    (hget : getJob s job.id = some job) (hI : Inv s) :
    Inv (executeJob s job wid runOk err base t1 t2).1 := by
  cases hL : (lockJob s job.id wid t1).2 with
  | false =>
    rw [executeJob_eq_lost hL, lockJob_not_locked hL]
    exact hI
  | true =>
    have hI1 : Inv (lockJob s job.id wid t1).1 := Inv_lockJob hI
    cases runOk with
    | true =>
      rw [executeJob_eq_success hL]
      refine Inv_updateJob_of (fun j => rfl) ?_ hI1
      intro k' _ _
      exact ⟨by simp [widOk], by simp [failedOk]⟩
    | false =>
      obtain ⟨k, hk, hkid, hkp⟩ := lockJob_any_iff.mp hL
      have hkj : k = job := eq_of_mem_of_getJob hI.1 hget hk hkid
      have hpend : job.state = JobState.pending := hkj ▸ hkp
      have hget1 : getJob (lockJob s job.id wid t1).1 job.id =
          some { job with state := JobState.processing,
                          worker_id := some wid, updated_at := t1 } := by
        rw [getJob_lockJob hget, if_pos hpend]
      by_cases hdead : job.max_retries ≤ job.attempts + 1
      · rw [executeJob_eq_dead hL hdead]
        refine Inv_updateJob_of (fun j => rfl) ?_ hI1
        intro k' _ _
        exact ⟨by simp [widOk], by simp [failedOk]⟩
      · rw [executeJob_eq_failed hL (Nat.lt_of_not_le hdead)]
        refine Inv_updateJob_of (fun j => rfl) ?_ hI1
        intro k' hk' hk'id
        have hk'eq : k' =
            { job with state := JobState.processing,
                       worker_id := some wid, updated_at := t1 } :=
          eq_of_mem_of_getJob hI1.1 hget1 hk' hk'id
        subst hk'eq
        refine ⟨by simp [widOk], ?_⟩
        rw [failedOk]
        intro _
        exact ⟨by simp, by simpa using Nat.lt_of_not_le hdead⟩

theorem Inv_getNextJob {s : Store} {now : ℚ} (hI : Inv s) :
    Inv (getNextJob s now).1 := by
  unfold getNextJob
  cases hp : getNextPendingJob s with
  | some j => exact hI
  | none =>
    cases hr : getRetryableJobs s now with
    | none => exact hI
    | some j =>
      obtain ⟨hjmem, hjr⟩ := getRetryableJobs_mem hr
      have hjf : j.state = JobState.failed := (isRetryable_iff.mp hjr).1
      simp only []
      refine Inv_updateJob_of (by intro k; rfl) ?_ hI
      intro k hk hkid
      have hkj : k = j := eq_of_mem_of_getJob hI.1
        (getJob_of_mem hI.1 hjmem) hk hkid
      subst hkj
      have hwid : k.worker_id = none :=
        widOk_none_of_not_processing (hI.2 k hk).1 (by rw [hjf]; simp)
      exact ⟨by simp [widOk, hwid], by simp [failedOk]⟩

theorem Inv_moveToDLQ {s : Store} {id : String} {now : ℚ} (hI : Inv s) :
    Inv (moveToDLQ s id now).1 := by
  refine Inv_updateJob_of (by intro j; rfl) ?_ hI
  intro k _ _
  exact ⟨by simp [widOk], by simp [failedOk]⟩

theorem Inv_retryFromDLQ {s : Store} {id : String} {now : ℚ} (hI : Inv s) :
    Inv (retryFromDLQ s id now).1 := by
  unfold retryFromDLQ
  split
  · exact hI
  next j hg =>
    split
    next hd =>
      refine Inv_updateJob_of (fun k => rfl) ?_ hI
      intro k hk hkid
      have hkj : k = j := eq_of_mem_of_getJob hI.1 hg hk hkid
      subst hkj
      have hwid : k.worker_id = none :=
        widOk_none_of_not_processing (hI.2 k hk).1 (by rw [hd]; simp)
      exact ⟨by simp [widOk, hwid], by simp [failedOk]⟩
    · exact hI

theorem Inv_step {s s' : Store} (hI : Inv s) (h : Step s s') : Inv s' := by
  cases h with
  | enq d cfg now h => exact Inv_enqueue h hI
  | claim id wid now => exact Inv_lockJob hI
  | exec wid err runOk base t1 t2 h => exact Inv_executeJob h hI
  | next now => exact Inv_getNextJob hI
  | moveDead id now => exact Inv_moveToDLQ hI
  | retryDead id now => exact Inv_retryFromDLQ hI

theorem Inv_reachable {s : Store} (h : Reachable s) : Inv s := by
  induction h with
  | base => exact ⟨List.Pairwise.nil, by simp⟩
  | step _ hs ih => exact Inv_step ih hs

/-! ## Claim-protocol lemmas -/

theorem uniqueIds_lockJob {s : Store} {id wid : String} {now : ℚ}
    (hu : uniqueIds s) : uniqueIds (lockJob s id wid now).1 := by
  refine uniqueIds_map ?_ hu
  intro k
  by_cases hk : k.id = id ∧ k.state = JobState.pending <;> simp [hk]

theorem lockSeq_all_fail {s : Store} {id : String} {j : Job}
    (hu : uniqueIds s) (hget : getJob s id = some j)
    (hnp : j.state ≠ JobState.pending) :
    ∀ ws : List (String × ℚ),
      (lockSeq s id ws).2 = ws.map (fun _ => false) := by
  intro ws
  induction ws with
  | nil => rfl
  | cons a rest ih =>
    have hfail : (lockJob s id a.1 a.2).2 = false := by
      cases hr : (lockJob s id a.1 a.2).2 with
      | false => rfl
      | true =>
        obtain ⟨k, hk, hkid, hkp⟩ := lockJob_any_iff.mp hr
        exact absurd (eq_of_mem_of_getJob hu hget hk hkid ▸ hkp) hnp
    have hst : (lockJob s id a.1 a.2).1 = s := lockJob_not_locked hfail
    simp only [lockSeq, hst, hfail]
    simp [ih]

/-! ## The claims -/

/-- C1: a claim (`lockJob`) succeeds iff the job's current state is
`pending`; on success it sets `state = processing` and `worker_id` to the
claiming worker; on failure it changes nothing and reports failure; hence in
any sequence of claim attempts against the same pending job exactly the
first succeeds. -/
theorem lockJob_claim_spec {s : Store} (id wid : String) (now : ℚ)
    (hu : uniqueIds s) :
    ((lockJob s id wid now).2 = true ↔
        ∃ j, getJob s id = some j ∧ j.state = JobState.pending)
  ∧ (∀ j, getJob s id = some j → j.state = JobState.pending →
        getJob (lockJob s id wid now).1 id =
          some { j with state := JobState.processing,
                        worker_id := some wid, updated_at := now })
  ∧ ((lockJob s id wid now).2 = false → (lockJob s id wid now).1 = s)
  ∧ (∀ j, getJob s id = some j → j.state = JobState.pending →
        ∀ (w : String) (t : ℚ) (ws : List (String × ℚ)),
          (lockSeq s id ((w, t) :: ws)).2 =
            true :: ws.map (fun _ => false)) := by
  refine ⟨?_, ?_, lockJob_not_locked, ?_⟩
  · rw [lockJob_any_iff]
    constructor
    · rintro ⟨k, hk, hkid, hkp⟩
      cases hg : getJob s id with
      | none => exact absurd hkid (getJob_eq_none.mp hg k hk)
      | some j => exact ⟨j, rfl, eq_of_mem_of_getJob hu hg hk hkid ▸ hkp⟩
    · rintro ⟨j, hg, hp⟩
      obtain ⟨hm, hid⟩ := getJob_mem hg
      exact ⟨j, hm, hid, hp⟩
  · intro j hg hp
    rw [getJob_lockJob hg, if_pos hp]
  · intro j hg hp w t ws
    have hlocked : (lockJob s id w t).2 = true :=
      lockJob_any_iff.mpr ⟨j, (getJob_mem hg).1, (getJob_mem hg).2, hp⟩
    have hget1 : getJob (lockJob s id w t).1 id =
        some { j with state := JobState.processing, worker_id := some w,
                      updated_at := t } := by
      rw [getJob_lockJob hg, if_pos hp]
    simp only [lockSeq, hlocked]
    simp [lockSeq_all_fail (uniqueIds_lockJob hu) hget1 (by simp) ws]

/-- Witness for C1: in a store holding one pending job, three successive
claim attempts yield exactly one success, the first. -/
theorem lockJob_claim_spec_witness :
    (lockSeq [w1] "c1" [("wa", 1), ("wb", 2), ("wc", 3)]).2 =
      [true, false, false] := by
  have h := (lockJob_claim_spec (s := [w1]) "c1" "wa" 1 (by decide)).2.2.2
    w1 (by rfl) (by rfl) "wa" 1 [("wb", 2), ("wc", 3)]
  simpa using h

/-- C2: on a failed execution attempt the job transitions to `dead` exactly
when the post-increment attempts count reaches or exceeds `max_retries`, and
to `failed` exactly otherwise; a successful attempt never produces `dead`. -/
theorem executeJob_dead_threshold {s : Store} {job : Job} (wid err : String)
    (base t1 t2 : ℚ) (hget : getJob s job.id = some job)
    (hpend : job.state = JobState.pending) :
    (∃ j', getJob (executeJob s job wid false err base t1 t2).1 job.id =
        some j' ∧ j'.attempts = job.attempts + 1 ∧
        (j'.state = JobState.dead ↔ job.max_retries ≤ job.attempts + 1) ∧
        (j'.state = JobState.failed ↔ job.attempts + 1 < job.max_retries))
  ∧ (∀ j'', getJob (executeJob s job wid true err base t1 t2).1 job.id =
        some j'' → j''.state = JobState.completed) := by
  have hL : (lockJob s job.id wid t1).2 = true :=
    lockJob_any_iff.mpr ⟨job, (getJob_mem hget).1, (getJob_mem hget).2, hpend⟩
  have hget1 : getJob (lockJob s job.id wid t1).1 job.id =
      some { job with state := JobState.processing, worker_id := some wid,
                      updated_at := t1 } := by
    rw [getJob_lockJob hget, if_pos hpend]
  constructor
  · by_cases hdead : job.max_retries ≤ job.attempts + 1
    · rw [executeJob_eq_dead hL hdead]
      refine ⟨_, getJob_updateJob (by intro k; rfl) hget1, rfl, ?_, ?_⟩
      · simpa using hdead
      · constructor
        · intro hcontra
          exact absurd hcontra (by simp)
        · intro hlt
          exact absurd hlt (by omega)
    · have hlive := Nat.lt_of_not_le hdead
      rw [executeJob_eq_failed hL hlive]
      refine ⟨_, getJob_updateJob (by intro k; rfl) hget1, rfl, ?_, ?_⟩
      · constructor
        · intro hcontra
          exact absurd hcontra (by simp)
        · intro hge
          exact absurd hge (by omega)
      · simpa using hlive
  · intro j'' hj''
    rw [executeJob_eq_success hL,
        getJob_updateJob (by intro k; rfl) hget1] at hj''
    cases hj''
    rfl

/-- Witness for C2: a pending job with `attempts = 2`, `max_retries = 3`
fails once more; post-increment attempts reach 3 and it is `dead`, not
`failed`. -/
theorem executeJob_dead_threshold_witness :
    ∃ j', getJob (executeJob [w2] w2 "w" false "E" 2 0 0).1 "c2" = some j' ∧
      j'.attempts = 2 + 1 ∧
      (j'.state = JobState.dead ↔ 3 ≤ 2 + 1) ∧
      (j'.state = JobState.failed ↔ 2 + 1 < 3) :=
  (@executeJob_dead_threshold [w2] w2 "w" "E" 2 0 0 (by rfl) (by rfl)).1

/-- C4: after the k-th failed attempt of a job that stays retryable,
`next_retry_at` is `now` plus `backoff_base ^ k` seconds (k the
post-increment attempts count), an exponentiation over a possibly fractional
base. -/
theorem executeJob_backoff_formula {s : Store} {job : Job} (wid err : String)
    (base t1 t2 : ℚ) (hget : getJob s job.id = some job)
    (hpend : job.state = JobState.pending)
    (hlive : job.attempts + 1 < job.max_retries) :
    (∃ j', getJob (executeJob s job wid false err base t1 t2).1 job.id =
        some j' ∧ j'.state = JobState.failed ∧
        j'.attempts = job.attempts + 1 ∧
        j'.next_retry_at = some (t2 + base ^ (job.attempts + 1) * 1000))
  ∧ (executeJob s job wid false err base t1 t2).2 =
      ExecOutcome.failed (job.attempts + 1)
        (some (t2 + base ^ (job.attempts + 1) * 1000)) := by
  have hL : (lockJob s job.id wid t1).2 = true :=
    lockJob_any_iff.mpr ⟨job, (getJob_mem hget).1, (getJob_mem hget).2, hpend⟩
  have hget1 : getJob (lockJob s job.id wid t1).1 job.id =
      some { job with state := JobState.processing, worker_id := some wid,
                      updated_at := t1 } := by
    rw [getJob_lockJob hget, if_pos hpend]
  rw [executeJob_eq_failed hL hlive]
  exact ⟨⟨_, getJob_updateJob (by intro k; rfl) hget1, rfl, rfl, rfl⟩, rfl⟩

/-- Witness for C4 at the fractional base 3/2: the second failure schedules
the retry `1.5 ^ 2 = 2.25` seconds (2250 ms) after `now = 0` — an
exponentiation, where a multiplication would give 3 seconds. -/
theorem executeJob_backoff_formula_witness :
    (executeJob [w4] w4 "w" false "E" (3 / 2) 0 0).2 =
      ExecOutcome.failed 2 (some 2250) ∧ (3 / 2 : ℚ) ^ 2 * 1000 ≠ 3 / 2 * 2 * 1000 := by
  have h := (@executeJob_backoff_formula [w4] w4 "w" "E"
    (3 / 2) 0 0 (by rfl) (by rfl) (by decide)).2
  constructor
  · rw [h]
    norm_num [w4]
  · norm_num

/-- C10: when the command succeeds, only `state` (to `completed`),
`worker_id` (to null), `error_message` (to null) and `updated_at` change;
every other field of the job — in particular `attempts` — is unchanged, and
every other job in the store is untouched. -/
theorem executeJob_success_frame {s : Store} {job : Job} (wid err : String)
    (base t1 t2 : ℚ) (hget : getJob s job.id = some job)
    (hpend : job.state = JobState.pending) :
    getJob (executeJob s job wid true err base t1 t2).1 job.id =
      some { job with state := JobState.completed, worker_id := none,
                      error_message := none, updated_at := t2 }
  ∧ ∀ k ∈ s, k.id ≠ job.id →
      k ∈ (executeJob s job wid true err base t1 t2).1 := by
  have hL : (lockJob s job.id wid t1).2 = true :=
    lockJob_any_iff.mpr ⟨job, (getJob_mem hget).1, (getJob_mem hget).2, hpend⟩
  have hget1 : getJob (lockJob s job.id wid t1).1 job.id =
      some { job with state := JobState.processing, worker_id := some wid,
                      updated_at := t1 } := by
    rw [getJob_lockJob hget, if_pos hpend]
  rw [executeJob_eq_success hL]
  constructor
  · rw [getJob_updateJob (by intro k; rfl) hget1]
  · intro k hk hne
    rw [mem_updateJob]
    refine ⟨k, ?_, by simp [hne]⟩
    simp only [lockJob, List.mem_map]
    exact ⟨k, hk, by simp [hne]⟩

/-- Witness for C10: a job that succeeds on its first try completes with
`attempts = 0` and all frame fields intact. -/
theorem executeJob_success_frame_witness :
    getJob (executeJob [w10] w10 "w" true "" 2 9 9).1 "c10" =
      some ⟨"c10", "echo ok", JobState.completed, 0, 3, 0, 9,
            none, none, none⟩ :=
  (@executeJob_success_frame [w10] w10 "w" "" 2 9 9 (by rfl) (by rfl)).1

/-- C5: `getNextJob` returns the oldest pending job when one exists;
otherwise, if a retryable failed job exists (failed, budget left,
`next_retry_at` unset or not after now, earliest-due first with SQLite's
NULL-first ordering), it resets that job to `pending` with `next_retry_at`
cleared and returns the refreshed record; otherwise it returns none and
mutates nothing. -/
theorem getNextJob_spec {s : Store} (now : ℚ) (hu : uniqueIds s) :
    ((∃ j ∈ s, j.state = JobState.pending) →
        ∃ j, getNextPendingJob s = some j)
  ∧ (∀ j, getNextPendingJob s = some j →
        getNextJob s now = (s, some j) ∧ j ∈ s ∧ j.state = JobState.pending ∧
          ∀ k ∈ s, k.state = JobState.pending → j.created_at ≤ k.created_at)
  ∧ (getNextPendingJob s = none → ∀ j, getRetryableJobs s now = some j →
        (j ∈ s ∧ j.state = JobState.failed ∧ j.attempts < j.max_retries ∧
          (∀ t, j.next_retry_at = some t → t ≤ now) ∧
          ∀ k ∈ s, isRetryable now k = true → retryKey j ≤ retryKey k) ∧
        getNextJob s now =
          (updateJob s j.id now (fun k =>
             { k with state := JobState.pending, next_retry_at := none }),
           some { j with state := JobState.pending,
                         next_retry_at := none, updated_at := now }))
  ∧ (getNextPendingJob s = none → getRetryableJobs s now = none →
        getNextJob s now = (s, none))
  ∧ (getNextPendingJob s = none ↔ ∀ j ∈ s, j.state ≠ JobState.pending)
  ∧ (getRetryableJobs s now = none ↔ ∀ j ∈ s, ¬ isRetryable now j = true) := by
  refine ⟨?_, ?_, ?_, ?_, getNextPendingJob_eq_none, getRetryableJobs_eq_none⟩
  · rintro ⟨j, hj, hp⟩
    cases h : getNextPendingJob s with
    | some k => exact ⟨k, rfl⟩
    | none => exact absurd hp (getNextPendingJob_eq_none.mp h j hj)
  · intro j hj
    obtain ⟨hm, hp⟩ := getNextPendingJob_mem hj
    exact ⟨by simp only [getNextJob, hj], hm, hp, getNextPendingJob_min hj⟩
  · intro hp j hr
    obtain ⟨hm, hret⟩ := getRetryableJobs_mem hr
    obtain ⟨hf, hb, hd⟩ := isRetryable_iff.mp hret
    refine ⟨⟨hm, hf, hb, hd, getRetryableJobs_min hr⟩, ?_⟩
    simp only [getNextJob, hp, hr]
    rw [getJob_updateJob (by intro k; rfl) (getJob_of_mem hu hm)]
  · intro hp hr
    simp only [getNextJob, hp, hr]

/-- Witness for C5: a store holding one due failed job; `getNextJob` at
t = 10000 re-queues it and returns the refreshed record. -/
theorem getNextJob_spec_witness :
    getNextJob [w5] 10000 = ([w5r], some w5r) := by
  have h := ((getNextJob_spec (s := [w5]) 10000 (by decide)).2.2.1
    (by rfl) w5 (by rfl)).2
  rw [h]
  rfl

/-- C6: `retryFromDLQ` on a `dead` job resets `state = pending`,
`attempts = 0`, `next_retry_at = null`, `error_message = null`; on an absent
id or a job not in `dead` it fails (returns none) and mutates nothing. -/
theorem retryFromDLQ_spec {s : Store} (id : String) (now : ℚ) :
    (∀ j, getJob s id = some j → j.state = JobState.dead →
        retryFromDLQ s id now =
          (updateJob s id now (fun k =>
             { k with state := JobState.pending, attempts := 0,
                      next_retry_at := none, error_message := none }),
           some { j with state := JobState.pending, attempts := 0,
                         next_retry_at := none, error_message := none,
                         updated_at := now }))
  ∧ (getJob s id = none → retryFromDLQ s id now = (s, none))
  ∧ (∀ j, getJob s id = some j → j.state ≠ JobState.dead →
        retryFromDLQ s id now = (s, none)) := by
  refine ⟨?_, ?_, ?_⟩
  · intro j hg hd
    simp only [retryFromDLQ, hg, if_pos hd]
    rw [getJob_updateJob (by intro k; rfl) hg]
  · intro hg
    simp only [retryFromDLQ, hg]
  · intro j hg hd
    simp only [retryFromDLQ, hg, if_neg hd]

/-- Witness for C6: retrying the dead job `w6` at t = 7 yields the reset
record `w6r`. -/
theorem retryFromDLQ_spec_witness :
    retryFromDLQ [w6] "c6" 7 = ([w6r], some w6r) := by
  have h := (retryFromDLQ_spec (s := [w6]) "c6" 7).1 w6 (by rfl) (by rfl)
  rw [h]
  rfl

/-- C7 counterexample: a descriptor supplying `max_retries = 0` does not
persist 0 — JavaScript `0 || default` falls back to the configuration
default, so the stored job carries `max_retries = 3`. -/
theorem enqueue_zero_max_retries_cex :
    enqueue [] zeroDescr Config.seeded 0 = Except.ok ([zeroJob], zeroJob) ∧
    zeroDescr.max_retries = some 0 ∧ zeroJob.max_retries = 3 ∧
    ¬ zeroJob.max_retries = 0 :=
  ⟨rfl, rfl, rfl, by decide⟩

/-- C7 amended: `enqueue` fixes `max_retries` at creation for positive
supplied values; a supplied 0 is treated like an absent field and replaced by
the configuration default, and a configuration default of 0 is further
replaced by the persistence-layer constant 3. -/
theorem enqueue_max_retries_spec {s : Store} {d : JobDescriptor}
    {cfg : Config} {now : ℚ} {s' : Store} {j : Job}
    (h : enqueue s d cfg now = Except.ok (s', j)) :
    (∀ n, d.max_retries = some n → n ≠ 0 → j.max_retries = n)
  ∧ ((d.max_retries = none ∨ d.max_retries = some 0) →
       j.max_retries =
         if cfg.getMaxRetries = 0 then 3 else cfg.getMaxRetries) := by
  obtain ⟨-, -, -, -, -, -, -, -, -, -, -, hmr⟩ := enqueue_ok h
  constructor
  · intro n hn hn0
    rw [hmr]
    simp [jsOrNat, hn, hn0]
  · intro hcase
    rcases hcase with hc | hc <;> rw [hmr] <;> simp [jsOrNat, hc]

/-- Witness for C7 (amended): a supplied `max_retries = 5` is persisted
exactly. -/
theorem enqueue_max_retries_spec_witness :
    enqueue [] fiveDescr Config.seeded 0 = Except.ok ([fiveJob], fiveJob) ∧
    fiveJob.max_retries = 5 :=
  ⟨rfl, (@enqueue_max_retries_spec [] fiveDescr Config.seeded 0 [fiveJob]
    fiveJob rfl).1 5 rfl (by decide)⟩

/-- C8: in every store reachable from the empty store through the dispatch
operations, a job's `worker_id` is non-null iff its state is `processing`. -/
theorem reachable_worker_id_iff {s : Store} (h : Reachable s) :
    ∀ j ∈ s, j.worker_id ≠ none ↔ j.state = JobState.processing :=
  fun j hj => ((Inv_reachable h).2 j hj).1

/-- Witness for C8: in the store reached by enqueueing `d8` and claiming the
job, the claimed row has a worker and is `processing`. -/
theorem reachable_worker_id_iff_witness :
    (⟨"w8", "cmd", JobState.processing, 0, 3, 0, 1, none, some "worker-1",
      none⟩ : Job).worker_id ≠ none ↔
    (⟨"w8", "cmd", JobState.processing, 0, 3, 0, 1, none, some "worker-1",
      none⟩ : Job).state = JobState.processing := by
  have h1 : Reachable s8a :=
    Reachable.step Reachable.base
      (Step.enq d8 Config.seeded 0
        (show enqueue [] d8 Config.seeded 0 = Except.ok (s8a,
          ⟨"w8", "cmd", JobState.pending, 0, 3, 0, 0, none, none, none⟩)
         from rfl))
  have h2 : Reachable s8b := by
    have hstep := Reachable.step h1 (Step.claim "w8" "worker-1" 1)
    have he : (lockJob s8a "w8" "worker-1" 1).1 = s8b := by decide
    rwa [he] at hstep
  exact reachable_worker_id_iff h2 _ (by decide)

/-- C9: in every reachable store, every `failed` job has a non-null
`next_retry_at` and `attempts < max_retries`; consequently the
`next_retry_at IS NULL` branch of the retryable query never selects a
job. -/
theorem reachable_failed_discipline {s : Store} (h : Reachable s) :
    (∀ j ∈ s, j.state = JobState.failed →
        j.next_retry_at ≠ none ∧ j.attempts < j.max_retries)
  ∧ ∀ (now : ℚ) (j : Job), getRetryableJobs s now = some j →
        j.next_retry_at ≠ none := by
  have hI := Inv_reachable h
  refine ⟨fun j hj => (hI.2 j hj).2, ?_⟩
  intro now j hr
  obtain ⟨hjmem, hjr⟩ := getRetryableJobs_mem hr
  exact ((hI.2 j hjmem).2 (isRetryable_iff.mp hjr).1).1

/-- Witness for C9: in the store reached by enqueueing `d9` and failing the
job once, the failed row has a scheduled retry and budget left. -/
theorem reachable_failed_discipline_witness :
    (⟨"w9", "cmd", JobState.failed, 1, 3, 0, 0, some 2000, none,
      some "E"⟩ : Job).next_retry_at ≠ none ∧
    (⟨"w9", "cmd", JobState.failed, 1, 3, 0, 0, some 2000, none,
      some "E"⟩ : Job).attempts <
      (⟨"w9", "cmd", JobState.failed, 1, 3, 0, 0, some 2000, none,
        some "E"⟩ : Job).max_retries := by
  have h1 : Reachable s9a :=
    Reachable.step Reachable.base
      (Step.enq d9 Config.seeded 0
        (show enqueue [] d9 Config.seeded 0 = Except.ok (s9a, j9) from rfl))
  have h2 : Reachable s9b := by
    have hstep := Reachable.step h1
      (@Step.exec s9a j9 "w" "E" false 2 0 0 (by rfl))
    have he : (executeJob s9a j9 "w" false "E" 2 0 0).1 = s9b := by
      rw [executeJob_eq_failed (by decide) (by decide)]
      have hE : ¬("E" = "") := by decide
      norm_num [updateJob, lockJob, s9a, s9b, j9, hE]
    rwa [he] at hstep
  exact (reachable_failed_discipline h2).1 _ (by decide) (by rfl)

/-! ### The always-failing scenario, step by step -/

theorem scStep1 : enqueue [] scDescr Config.seeded 0 =
    Except.ok (scStore0, scJob0) := rfl

theorem scStep2 : getNextJob scStore0 0 = (scStore0, some scJob0) := by
  decide

theorem scStep3 : executeJob scStore0 scJob0 "w" false "E" 2 0 0 =
    (scStore1, ExecOutcome.failed 1 (some 2000)) := by
  rw [executeJob_eq_failed (by decide) (by decide)]
  have hE : ¬("E" = "") := by decide
  norm_num [updateJob, lockJob, scStore0, scJob0, scStore1, scJob1, hE]

theorem scStep4 : getNextJob scStore1 2000 = (scStore2, some scJob2) := by
  decide

theorem scStep5 : executeJob scStore2 scJob2 "w" false "E" 2 2000 2000 =
    (scStore3, ExecOutcome.failed 2 (some 6000)) := by
  rw [executeJob_eq_failed (by decide) (by decide)]
  have hE : ¬("E" = "") := by decide
  norm_num [updateJob, lockJob, scStore2, scJob2, scStore3, scJob3, hE]

theorem scStep6 : getNextJob scStore3 6000 = (scStore4, some scJob4) := by
  decide

theorem scStep7 : executeJob scStore4 scJob4 "w" false "E" 2 6000 6000 =
    (scStore5, ExecOutcome.failed 3 none) := by
  decide

/-- C3 counterexample: running the scenario (`max_retries = 3`, base 2,
always-failing command, polls exactly when each retry falls due), the THIRD
consecutive failed execution already moves the job to `dead` with
post-increment `attempts = 3 ≥ 3`: it does not stay `failed` with an
8-second backoff, and no fourth execution happens (the job is no longer
retryable). -/
theorem scenario_third_failure_dead_cex :
    enqueue [] scDescr Config.seeded 0 = Except.ok (scStore0, scJob0) ∧
    getNextJob scStore0 0 = (scStore0, some scJob0) ∧
    executeJob scStore0 scJob0 "w" false "E" 2 0 0 =
      (scStore1, ExecOutcome.failed 1 (some 2000)) ∧
    getNextJob scStore1 2000 = (scStore2, some scJob2) ∧
    executeJob scStore2 scJob2 "w" false "E" 2 2000 2000 =
      (scStore3, ExecOutcome.failed 2 (some 6000)) ∧
    getNextJob scStore3 6000 = (scStore4, some scJob4) ∧
    executeJob scStore4 scJob4 "w" false "E" 2 6000 6000 =
      (scStore5, ExecOutcome.failed 3 none) ∧
    getJob scStore5 "j1" = some scJob5 ∧
    scJob5.state = JobState.dead ∧
    ¬ scJob5.state = JobState.failed ∧
    scJob5.attempts = 3 ∧ scJob5.next_retry_at = none ∧
    getNextJob scStore5 20000 = (scStore5, none) :=
  ⟨scStep1, scStep2, scStep3, scStep4, scStep5, scStep6, scStep7,
   by decide, by decide, by decide, by decide, by decide, by decide⟩

/-- C3 amended: with `max_retries = 3`, base 2, and an always-failing
command, the first two failed executions cycle the job
`failed → pending → failed` with `attempts` 1, 2 and backoff delays 2 and 4
seconds, and the THIRD failed execution (post-increment `attempts = 3 ≥ 3`)
moves it to `dead`. -/
theorem scenario_retry_backoff_amended :
    executeJob scStore0 scJob0 "w" false "E" 2 0 0 =
      (scStore1, ExecOutcome.failed 1 (some (0 + 2 ^ 1 * 1000))) ∧
    scJob1.state = JobState.failed ∧ scJob1.attempts = 1 ∧
    getNextJob scStore1 2000 = (scStore2, some scJob2) ∧
    scJob2.state = JobState.pending ∧
    executeJob scStore2 scJob2 "w" false "E" 2 2000 2000 =
      (scStore3, ExecOutcome.failed 2 (some (2000 + 2 ^ 2 * 1000))) ∧
    scJob3.state = JobState.failed ∧ scJob3.attempts = 2 ∧
    getNextJob scStore3 6000 = (scStore4, some scJob4) ∧
    scJob4.state = JobState.pending ∧
    executeJob scStore4 scJob4 "w" false "E" 2 6000 6000 =
      (scStore5, ExecOutcome.failed 3 none) ∧
    scJob5.state = JobState.dead ∧ scJob5.attempts = 3 ∧
    scJob5.attempts = scJob5.max_retries := by
  refine ⟨?_, by decide, by decide, scStep4, by decide, ?_, by decide,
    by decide, scStep6, by decide, scStep7, by decide, by decide, by decide⟩
  · rw [scStep3]
    norm_num
  · rw [scStep5]
    norm_num

end QueCtl
